import Mathlib

/-!
Verification of the FAUCET Mininet test-topology builder
(`clib/mininet_test_topo.py`): the serial-prefix codec, the port-order
extension, the hardware port remapper, and the string-of-datapaths
chain/ring builder with its per-switch port and peer-link tables.

Machine integers are modelled as `Nat`/`Int` (Python integers are
unbounded, so no wrap-around is modelled).  Python operations that can
raise (`assert`, list indexing, dict lookup) return `Except PyErr` /
`Option` values.  Switches are identified by their build position;
switch names (derived from serial numbers handed out by the external
allocator) are assumed pairwise distinct, as the allocator guarantees.
-/

/-- The 62 id characters: `''.join(sorted(string.ascii_letters + string.digits))`.
Sorting by ASCII code puts digits before uppercase before lowercase. -/
def id_chars : List Char :=
  "0123456789ABCDEFGHIJKLMNOPQRSTUVWXYZabcdefghijklmnopqrstuvwxyz".data

/-- `FaucetSwitchTopo._get_sid_prefix(ports_served)`:
`id_a = int(ports_served / 62)`, `id_b = ports_served - id_a * 62`,
result `id_chars[id_a] + id_chars[id_b]`. -/
def get_sid_prefix (ports_served : Nat) : String :=
  let id_a := ports_served / id_chars.length
  let id_b := ports_served - id_a * id_chars.length
  String.mk [id_chars.getD id_a ' ', id_chars.getD id_b ' ']

/-- `FaucetSwitchTopo.extend_port_order(port_order, max_length)`:
`if not port_order: port_order = []` then
`port_order + list(range(len(port_order), max_length + 1))`.
The absent (`None`) seed is `none`; `range(a, b)` is `List.range' a (b - a)`. -/
def extend_port_order (port_order : Option (List Nat)) (max_length : Nat) : List Nat :=
  let po := port_order.getD []
  po ++ List.range' po.length (max_length + 1 - po.length)

/-- Errors a modelled Python operation can raise: a failed `assert`,
an out-of-range list index, a missing dict key. -/
inductive PyErr where
  | assertionError
  | indexError
  | keyError
deriving DecidableEq, Repr

/-- Python list indexing `l[i]` for a possibly negative `i`: a negative
index counts from the end; out of range raises `IndexError`. -/
def pyGet (l : List Nat) (i : Int) : Except PyErr Nat :=
  let j : Int := if i < 0 then (l.length : Int) + i else i
  if 0 ≤ j ∧ j < (l.length : Int) then .ok (l.getD j.toNat 0) else .error .indexError

instance {ε α : Type} [DecidableEq ε] [DecidableEq α] : DecidableEq (Except ε α) :=
  fun a b =>
  match a, b with
  | .ok x, .ok y =>
    decidable_of_iff (x = y) ⟨fun h => by rw [h], fun h => Except.ok.inj h⟩
  | .error x, .error y =>
    decidable_of_iff (x = y) ⟨fun h => by rw [h], fun h => Except.error.inj h⟩
  | .ok _, .error _ => isFalse fun h => Except.noConfusion h
  | .error _, .ok _ => isFalse fun h => Except.noConfusion h

/-- The hardware remap context set up by `build`: `hw_dpid` (`None` when no
hardware switch is designated), `hw_ports = sorted(switch_map)` (empty when
`switch_map` is falsy) and `start_port`.  Dpids are modelled as `Nat`. -/
structure HwCtx where
  hw_dpid : Option Nat
  hw_ports : List Nat
  start_port : Nat
deriving DecidableEq, Repr

/-- `FaucetSwitchTopo.hw_remap_port(dpid, port)`:
`if dpid != self.hw_dpid: return port`, then `assert self.hw_ports`,
then `return self.hw_ports[port - self.start_port]`. -/
def hw_remap_port (c : HwCtx) (dpid : Nat) (port : Nat) : Except PyErr Nat :=
  if some dpid ≠ c.hw_dpid then .ok port
  else if c.hw_ports = [] then .error .assertionError
  else pyGet c.hw_ports ((port : Int) - (c.start_port : Int))

/-- `peer_link = namedtuple('peer_link', 'port peer_dpid peer_port')`. -/
structure PeerLink where
  port : Nat
  peer_dpid : Nat
  peer_port : Nat
deriving DecidableEq, Repr

/-- `FaucetSwitchTopo.hw_remap_peer_link(dpid, link)`: remaps `link.port`
under `dpid` and `link.peer_port` under `link.peer_dpid`, keeping
`link.peer_dpid`. -/
def hw_remap_peer_link (c : HwCtx) (dpid : Nat) (link : PeerLink) :
    Except PyErr PeerLink := do
  let port ← hw_remap_port c dpid link.port
  let peer_port ← hw_remap_port c link.peer_dpid link.peer_port
  return ⟨port, link.peer_dpid, peer_port⟩

/-- A Python list comprehension `[f(x) for x in l]` over fallible `f`:
evaluated left to right, the first raised error propagates. -/
def mapExcept (f : α → Except PyErr β) : List α → Except PyErr (List β)
  | [] => .ok []
  | a :: as => do
    let b ← f a
    let bs ← mapExcept f as
    return b :: bs

/-- The switch specification produced by `_add_faucet_switch`: the switch
name, whether the switch class is `NoControllerFaucetSwitch` (whose
`start` passes `controllers=[]`, i.e. no controller connections of its
own), and the logical dpid passed to `addSwitch`. -/
structure SwitchSpec where
  name : String
  no_controller : Bool
  dpid : Nat
deriving DecidableEq, Repr

/-- `FaucetSwitchTopo._add_faucet_switch(sid_prefix, dpid, hw_dpid, ovs_type)`:
`if hw_dpid and hw_dpid == dpid`, the dpid is remapped to `dpid + 1` and
the class becomes `NoControllerFaucetSwitch`; otherwise a normal
controller-connected `FaucetSwitch` keeps its dpid.  (The dpid maps
`switch_dpids` / `dpid_names` are updated with the original dpid before
the remap; the chain builder below records original dpids accordingly.) -/
def add_faucet_switch ( sid_prefix : String) (dpid : Nat) (hw_dpid : Option Nat) :
    SwitchSpec :=
  if hw_dpid = some dpid then
    { name := "s" ++ sid_prefix, no_controller := true, dpid := dpid + 1 }
  else
    { name := "s" ++ sid_prefix, no_controller := false, dpid := dpid }

/-- Per-switch build state, one entry per switch position:
the original dpid (`switch_dpids`), the recorded port list
(`switch_ports`), the recorded peer-link list (`switch_peer_links`) and
the next port-order index (`next_index`).  Switch names are pairwise
distinct (serial allocator guarantee), so build position identifies the
dict key. -/
structure Sw where
  dpid : Nat
  ports : List Nat
  peers : List PeerLink
  nextIndex : Nat
deriving DecidableEq, Repr

instance : Inhabited Sw := ⟨⟨0, [], [], 0⟩⟩

def getSw (sws : List Sw) (i : Nat) : Sw := sws.getD i default

def setSw (sws : List Sw) (i : Nat) (s : Sw) : List Sw := sws.set i s

def modifySw (sws : List Sw) (i : Nat) (f : Sw → Sw) : List Sw :=
  setSw sws i (f (getSw sws i))

/-- One iteration of the loop body of `addLinks` in
`FaucetStringOfDPSwitchTopo.build`, on the switches at positions `i`
(src) and `j` (dst): read both indices, compute both ports, create the
link, append `port1`/`port2` to the two port lists, append the two
mirrored peer-link records, then increment both next indices — in
exactly the order of the Python statements (which matters when
`i = j`, the single-switch ring case). -/
def addLinkIter (sp : Nat) (po : List Nat) (i j : Nat) (sws : List Sw) : List Sw :=
  let port1 := sp + po.getD (getSw sws i).nextIndex 0
  let port2 := sp + po.getD (getSw sws j).nextIndex 0
  let dpid1 := (getSw sws i).dpid
  let dpid2 := (getSw sws j).dpid
  let s1 := modifySw sws i (fun s => { s with ports := s.ports ++ [port1] })
  let s2 := modifySw s1 j (fun s => { s with ports := s.ports ++ [port2] })
  let s3 := modifySw s2 i (fun s => { s with peers := s.peers ++ [⟨port1, dpid2, port2⟩] })
  let s4 := modifySw s3 j (fun s => { s with peers := s.peers ++ [⟨port2, dpid1, port1⟩] })
  let s5 := modifySw s4 i (fun s => { s with nextIndex := s.nextIndex + 1 })
  modifySw s5 j (fun s => { s with nextIndex := s.nextIndex + 1 })

/-- `addLinks(src, dst, next_index)`: `switch_to_switch_links` iterations
of the loop body. -/
def addLinksK (sp : Nat) (po : List Nat) (i j : Nat) : Nat → List Sw → List Sw
  | 0, sws => sws
  | k + 1, sws => addLinksK sp po i j k (addLinkIter sp po i j sws)

/-- A freshly added switch: host links already wired by `_add_links`,
which returns the number of ports consumed as the initial next index. -/
def mkSw (hostPorts : List Nat) (d : Nat) : Sw :=
  { dpid := d, ports := hostPorts, peers := [], nextIndex := hostPorts.length }

/-- One iteration of the per-dpid loop of
`FaucetStringOfDPSwitchTopo.build`: add the switch with its hosts
(`_add_links` assigns ports `start_port + port_order[0 .. H-1]`), and if
it is not the first switch, run `addLinks(last_switch, switch)`. -/
def chainStep (sp : Nat) (po : List Nat) (K : Nat) (hostPorts : List Nat)
    (sws : List Sw) (d : Nat) : List Sw :=
  let sws' := sws ++ [mkSw hostPorts d]
  if sws.isEmpty then sws' else addLinksK sp po (sws.length - 1) sws.length K sws'

/-- The per-dpid loop of `FaucetStringOfDPSwitchTopo.build`. -/
def chainBuild (sp : Nat) (po : List Nat) (K : Nat) (hostPorts : List Nat)
    (dpids : List Nat) : List Sw :=
  dpids.foldl (chainStep sp po K hostPorts) []

/-- The host ports assigned by `_add_links` for one switch:
`H = (n_tagged + n_untagged) * links_per_host` links in index order, port
`start_port + port_order[index]`.  (Every index used anywhere in the
build is below the extended port-order length, so total `getD` indexing
coincides with the partial Python indexing.) -/
def hostPortList (sp : Nat) (po : List Nat) (H : Nat) : List Nat :=
  (List.range H).map (fun idx => sp + po.getD idx 0)

/-- `FaucetStringOfDPSwitchTopo.build(...)`, restricted to the state the
claims query (`switch_dpids`, `switch_ports`, `switch_peer_links`):
extend the port order to `(n_tagged + n_untagged) * links_per_host +
2 * switch_to_switch_links`, run the per-dpid loop, and on `stack_ring`
run `addLinks(first_switch, last_switch)` — which raises (`None` key)
when there is no switch at all, modelled as `none`. -/
def buildStringOfDP (dpids : List Nat) (n_tagged n_untagged links_per_host K : Nat)
    (stack_ring : Bool) (start_port : Nat) (port_order : Option (List Nat)) :
    Option (List Sw) :=
  let maxp := (n_tagged + n_untagged) * links_per_host + 2 * K
  let po := extend_port_order port_order maxp
  let hp := hostPortList start_port po ((n_tagged + n_untagged) * links_per_host)
  let chain := chainBuild start_port po K hp dpids
  if stack_ring then
    if chain.isEmpty then none
    else some (addLinksK start_port po 0 (chain.length - 1) K chain)
  else some chain

/-- `dpid_names[dpid]` lookup: the dict maps each dpid to the name of the
last switch built with it (later writes win); `none` is a `KeyError`.
Names are identified with build positions. -/
def dpid_names_lookup (sws : List Sw) (d : Nat) : Option Nat :=
  ((List.range sws.length).filter (fun i => (getSw sws i).dpid == d)).getLast?

/-- `FaucetStringOfDPSwitchTopo.dpid_peer_links(dpid)`: look the dpid up
in `dpid_names`, then remap each recorded peer link of that switch. -/
def dpid_peer_links (c : HwCtx) (sws : List Sw) (d : Nat) :
    Except PyErr (List PeerLink) :=
  match dpid_names_lookup sws d with
  | none => .error .keyError
  | some i => mapExcept (hw_remap_peer_link c d) (getSw sws i).peers

/-- The mirror invariant of the peer-link tables: every stored record
has its mirror stored under a switch carrying the peer dpid. -/
def MirrorInv (sws : List Sw) : Prop :=
  ∀ i, i < sws.length → ∀ pl ∈ (getSw sws i).peers,
    ∃ j, j < sws.length ∧ (getSw sws j).dpid = pl.peer_dpid ∧
      (⟨pl.peer_port, (getSw sws i).dpid, pl.port⟩ : PeerLink) ∈ (getSw sws j).peers

/-- The number of inter-switch link groups a switch at position `i` in a
chain of `N` switches participates in: ends of a chain of `N ≥ 2` get 1,
interior switches 2, a single or absent switch 0. -/
def endCount (N i : Nat) : Nat :=
  if N ≤ 1 then 0 else if i = 0 ∨ i = N - 1 then 1 else 2

-- Sanity: the literal alphabet has no duplicate characters and is ASCII-sorted.
theorem id_chars_nodup : id_chars.Nodup := by decide

theorem id_chars_length : id_chars.length = 62 := by decide

theorem id_chars_sorted : id_chars.Pairwise (fun a b => a.toNat < b.toNat) := by decide

theorem id_chars_getD_inj :
    ∀ i < 62, ∀ j < 62, id_chars.getD i ' ' = id_chars.getD j ' ' → i = j := by decide

/-- C1: for distinct serial numbers `s1 ≠ s2` below `3844 = 62 * 62`, the
prefix codec `_get_sid_prefix` returns distinct 2-character prefixes. -/
theorem sid_prefix_injective (s1 s2 : Nat) (h1 : s1 < 3844) (h2 : s2 < 3844)
    (hne : s1 ≠ s2) : get_sid_prefix s1 ≠ get_sid_prefix s2 := by
  intro heq
  have hdata := congrArg String.data heq
  simp only [ get_sid_prefix, id_chars_length, List.cons.injEq, and_true] at hdata
  obtain ⟨ha, hb⟩ := hdata
  have hda : s1 / 62 < 62 := by omega
  have hdb : s2 / 62 < 62 := by omega
  have hma : s1 - s1 / 62 * 62 < 62 := by omega
  have hmb : s2 - s2 / 62 * 62 < 62 := by omega
  have e1 := id_chars_getD_inj _ hda _ hdb ha
  have e2 := id_chars_getD_inj _ hma _ hmb hb
  omega

theorem sid_prefix_injective_witness : get_sid_prefix 0 ≠ get_sid_prefix 1 :=
  sid_prefix_injective 0 1 (by decide) (by decide) (by decide)

/-- C2 counterexample: with seed `[0, 0]` and minimum length `n = 0`, the
result is `[0, 0]` of length 2, not `n + 1 = 1`: the claimed length `n+1`
fails whenever the seed is already longer than `n+1`. -/
theorem extend_port_order_len_counterexample :
    (extend_port_order (some [0, 0]) 0).length ≠ 0 + 1 := by decide

/-- C2 (amended): `extend_port_order seed n` has length
`max seed.length (n+1)` — exactly `n+1` whenever the seed is no longer than
`n+1` — keeps the seed as a prefix, and fills the remainder with
`seed.length, seed.length + 1, ...` in ascending order. -/
theorem extend_port_order_spec (port_order : Option (List Nat)) (n : Nat) :
    (extend_port_order port_order n).length = max (port_order.getD []).length (n + 1) ∧
    (extend_port_order port_order n).take (port_order.getD []).length = port_order.getD [] ∧
    (extend_port_order port_order n).drop (port_order.getD []).length =
      List.range' (port_order.getD []).length (n + 1 - (port_order.getD []).length) := by
  refine ⟨?_, ?_, ?_⟩
  · simp [extend_port_order]
    omega
  · simp [extend_port_order, List.take_left]
  · simp [extend_port_order, List.drop_left]

theorem pyGet_nonneg (l : List Nat) (i : Int) (h0 : 0 ≤ i)
    (h1 : i < (l.length : Int)) : pyGet l i = .ok (l.getD i.toNat 0) := by
  simp only [pyGet]
  rw [if_neg (show ¬ i < 0 by omega), if_pos ⟨h0, h1⟩]

theorem pyGet_neg (l : List Nat) (i : Int) (h0 : i < 0)
    (h1 : -(l.length : Int) ≤ i) :
    pyGet l i = .ok (l.getD ((l.length : Int) + i).toNat 0) := by
  simp only [pyGet]
  rw [if_pos h0, if_pos (by constructor <;> omega)]

theorem pyGet_err_iff (l : List Nat) (i : Int) :
    pyGet l i = .error .indexError ↔
      ((l.length : Int) ≤ i ∨ i < -(l.length : Int)) := by
  simp only [pyGet]
  split_ifs with hneg hin hin
  · exact iff_of_false (by simp) (by omega)
  · exact iff_of_true rfl (by omega)
  · exact iff_of_false (by simp) (by omega)
  · exact iff_of_true rfl (by omega)

theorem hw_remap_port_hw (c : HwCtx) (d : Nat) (hd : c.hw_dpid = some d)
    (hne : c.hw_ports ≠ []) (p : Nat) :
    hw_remap_port c d p = pyGet c.hw_ports ((p : Int) - (c.start_port : Int)) := by
  rw [hw_remap_port, hd]
  rw [if_neg (by simp), if_neg hne]

/-- C3: `hw_remap_port` is the identity for a dpid other than the
hardware dpid; for the hardware dpid with a non-empty port list and
`start_port ≤ port < start_port + len(hw_ports)` it returns
`hw_ports[port - start_port]`, in particular `hw_ports[0]` at
`port = start_port`. -/
theorem hw_remap_port_spec (c : HwCtx) (d p : Nat) :
    (some d ≠ c.hw_dpid → hw_remap_port c d p = .ok p) ∧
    (c.hw_dpid = some d → c.hw_ports ≠ [] →
      c.start_port ≤ p → p < c.start_port + c.hw_ports.length →
      hw_remap_port c d p = .ok (c.hw_ports.getD (p - c.start_port) 0)) ∧
    (c.hw_dpid = some d → c.hw_ports ≠ [] →
      hw_remap_port c d c.start_port = .ok (c.hw_ports.getD 0 0)) := by
  refine ⟨fun h => by simp [hw_remap_port, h], fun hd hne hle hlt => ?_,
    fun hd hne => ?_⟩
  · rw [hw_remap_port_hw c d hd hne p,
      pyGet_nonneg _ _ (by omega) (by omega),
      show (((p : Int)) - ((c.start_port : Int))).toNat = p - c.start_port by omega]
  · have hlen : 0 < c.hw_ports.length := List.length_pos.mpr hne
    rw [hw_remap_port_hw c d hd hne c.start_port,
      pyGet_nonneg _ _ (by omega) (by omega),
      show (((c.start_port : Int)) - ((c.start_port : Int))).toNat = 0 by omega]

theorem hw_remap_port_spec_witness :
    hw_remap_port ⟨some 2, [10, 20], 5⟩ 7 9 = .ok 9 ∧
    hw_remap_port ⟨some 2, [10, 20], 5⟩ 2 6 = .ok 20 ∧
    hw_remap_port ⟨some 2, [10, 20], 5⟩ 2 5 = .ok 10 :=
  ⟨(hw_remap_port_spec ⟨some 2, [10, 20], 5⟩ 7 9).1 (by decide),
   (hw_remap_port_spec ⟨some 2, [10, 20], 5⟩ 2 6).2.1 rfl (by decide) (by decide)
     (by decide),
   (hw_remap_port_spec ⟨some 2, [10, 20], 5⟩ 2 5).2.2 rfl (by decide)⟩

/-- C4: with an empty hardware-port list, remapping a port of the
hardware dpid fails the `assert` (for every port); for a dpid other
than the hardware dpid the call returns normally regardless of the
port list. -/
theorem hw_remap_port_assert (c : HwCtx) (d p : Nat) :
    (c.hw_dpid = some d → c.hw_ports = [] →
      hw_remap_port c d p = .error .assertionError) ∧
    (some d ≠ c.hw_dpid → hw_remap_port c d p = .ok p) := by
  constructor
  · intro hd hnil
    simp [hw_remap_port, hd, hnil]
  · intro h
    simp [hw_remap_port, h]

theorem hw_remap_port_assert_witness :
    hw_remap_port ⟨some 2, [], 5⟩ 2 9 = .error .assertionError ∧
    hw_remap_port ⟨some 2, [], 5⟩ 3 9 = .ok 9 :=
  ⟨(hw_remap_port_assert ⟨some 2, [], 5⟩ 2 9).1 rfl rfl,
   (hw_remap_port_assert ⟨some 2, [], 5⟩ 3 9).2 (by decide)⟩

/-- C10 counterexample: with `hw_ports = [3]` and `start_port = 5`, the
call at `port = 0` raises `IndexError` although
`port - start_port = -5 < 1 = len(hw_ports)`: an out-of-range error does
not occur *only* when `port - start_port ≥ len(hw_ports)` — it also
occurs when the offset is below `-len(hw_ports)`. -/
theorem hw_remap_port_neg_counterexample :
    hw_remap_port ⟨some 1, [3], 5⟩ 1 0 = .error .indexError ∧
    ((0 : Int) - 5 < (([3] : List Nat).length : Int)) := by decide

/-- C10 (amended): for the hardware dpid with a non-empty port list,
every port with `start_port - len(hw_ports) ≤ port < start_port` does
not fail: the negative offset wraps around (Python negative indexing)
and the call silently returns `hw_ports[len(hw_ports) + port -
start_port]` from the end of the sorted list — in particular
`port = start_port - 1` returns the last (largest) entry
`hw_ports[len(hw_ports) - 1]`; an out-of-range `IndexError` occurs
exactly when `port - start_port ≥ len(hw_ports)` or
`port - start_port < -len(hw_ports)`. -/
theorem hw_remap_port_neg_spec (c : HwCtx) (d p : Nat)
    (hd : c.hw_dpid = some d) (hne : c.hw_ports ≠ []) :
    (((c.start_port : Int) - (c.hw_ports.length : Int)) ≤ (p : Int) →
      p < c.start_port →
      hw_remap_port c d p =
        .ok (c.hw_ports.getD (c.hw_ports.length + p - c.start_port) 0)) ∧
    (c.start_port = p + 1 →
      hw_remap_port c d p = .ok (c.hw_ports.getD (c.hw_ports.length - 1) 0)) ∧
    (hw_remap_port c d p = .error .indexError ↔
      ((c.hw_ports.length : Int) ≤ (p : Int) - (c.start_port : Int) ∨
        (p : Int) - (c.start_port : Int) < -(c.hw_ports.length : Int))) := by
  have hlen : 0 < c.hw_ports.length := List.length_pos.mpr hne
  refine ⟨fun hge hlt => ?_, fun hsp => ?_, ?_⟩
  · rw [hw_remap_port_hw c d hd hne p,
      pyGet_neg _ _ (by omega) (by omega),
      show ((c.hw_ports.length : Int) + ((p : Int) - (c.start_port : Int))).toNat =
        c.hw_ports.length + p - c.start_port by omega]
  · rw [hw_remap_port_hw c d hd hne p,
      pyGet_neg _ _ (by omega) (by omega),
      show ((c.hw_ports.length : Int) + ((p : Int) - (c.start_port : Int))).toNat =
        c.hw_ports.length - 1 by omega]
  · rw [hw_remap_port_hw c d hd hne p, pyGet_err_iff]

theorem hw_remap_port_neg_spec_witness :
    hw_remap_port ⟨some 2, [10, 20], 5⟩ 2 4 = .ok 20 ∧
    hw_remap_port ⟨some 2, [10, 20], 5⟩ 2 4 = .ok 20 ∧
    hw_remap_port ⟨some 2, [10, 20], 5⟩ 2 9 = .error .indexError :=
  ⟨(hw_remap_port_neg_spec ⟨some 2, [10, 20], 5⟩ 2 4 rfl (by decide)).1 (by decide)
     (by decide),
   (hw_remap_port_neg_spec ⟨some 2, [10, 20], 5⟩ 2 4 rfl (by decide)).2.1 rfl,
   (hw_remap_port_neg_spec ⟨some 2, [10, 20], 5⟩ 2 9 rfl (by decide)).2.2.mpr
     (by decide)⟩

/-- C9: the switch factory builds the designated hardware dpid (when one
is configured) as a `NoControllerFaucetSwitch` — no controller
connections of its own — with logical dpid `dpid + 1`, and every other
switch as a normal controller-connected `FaucetSwitch` keeping its
dpid. -/
theorem add_faucet_switch_spec ( sid_prefix : String) (d : Nat) (hw : Option Nat) :
    (hw = some d →
      add_faucet_switch sid_prefix d hw =
        { name := "s" ++ sid_prefix, no_controller := true, dpid := d + 1 }) ∧
    (hw ≠ some d →
      add_faucet_switch sid_prefix d hw =
        { name := "s" ++ sid_prefix, no_controller := false, dpid := d }) := by
  constructor <;> intro h <;> simp [add_faucet_switch, h]

theorem add_faucet_switch_spec_witness :
    add_faucet_switch "ab" 7 (some 7) =
      { name := "sab", no_controller := true, dpid := 8 } ∧
    add_faucet_switch "ab" 7 none =
      { name := "sab", no_controller := false, dpid := 7 } :=
  ⟨(add_faucet_switch_spec "ab" 7 (some 7)).1 rfl,
   (add_faucet_switch_spec "ab" 7 none).2 (by decide)⟩

@[simp]
theorem length_setSw (sws : List Sw) (i : Nat) (s : Sw) :
    (setSw sws i s).length = sws.length := by
  simp [setSw]

@[simp]
theorem length_modifySw (sws : List Sw) (i : Nat) (f : Sw → Sw) :
    (modifySw sws i f).length = sws.length := by
  simp [modifySw]

theorem getSw_set_self {sws : List Sw} {i : Nat} {s : Sw} (h : i < sws.length) :
    getSw (setSw sws i s) i = s := by
  simp [getSw, setSw, List.getD_eq_getElem?_getD, List.getElem?_set_self',
    List.getElem?_eq_getElem h]

theorem getSw_set_ne {sws : List Sw} {i m : Nat} {s : Sw} (h : m ≠ i) :
    getSw (setSw sws i s) m = getSw sws m := by
  simp [getSw, setSw, List.getD_eq_getElem?_getD, List.getElem?_set_ne (Ne.symm h)]

theorem getSw_modify_self {sws : List Sw} {i : Nat} {f : Sw → Sw}
    (h : i < sws.length) : getSw (modifySw sws i f) i = f (getSw sws i) :=
  getSw_set_self h

theorem getSw_modify_ne {sws : List Sw} {i m : Nat} {f : Sw → Sw} (h : m ≠ i) :
    getSw (modifySw sws i f) m = getSw sws m :=
  getSw_set_ne h

theorem getSw_append_left {sws t : List Sw} {i : Nat} (h : i < sws.length) :
    getSw (sws ++ t) i = getSw sws i := by
  simp [getSw, List.getD_eq_getElem?_getD, List.getElem?_append_left h]

theorem getSw_append_len {sws : List Sw} {x : Sw} :
    getSw (sws ++ [x]) sws.length = x := by
  simp [getSw, List.getD_eq_getElem?_getD, List.getElem?_concat_length]

@[simp]
theorem addLinkIter_length (sp : Nat) (po : List Nat) (i j : Nat) (sws : List Sw) :
    (addLinkIter sp po i j sws).length = sws.length := by
  simp [addLinkIter]

theorem addLinkIter_getSw_other (sp : Nat) (po : List Nat) {i j m : Nat}
    (sws : List Sw) (hmi : m ≠ i) (hmj : m ≠ j) :
    getSw (addLinkIter sp po i j sws) m = getSw sws m := by
  simp only [addLinkIter]
  rw [getSw_modify_ne hmj, getSw_modify_ne hmi, getSw_modify_ne hmj,
    getSw_modify_ne hmi, getSw_modify_ne hmj, getSw_modify_ne hmi]

theorem addLinkIter_getSw_left (sp : Nat) (po : List Nat) {i j : Nat}
    (sws : List Sw) (hij : i ≠ j) (hi : i < sws.length) :
    getSw (addLinkIter sp po i j sws) i =
      { dpid := (getSw sws i).dpid,
        ports := (getSw sws i).ports ++ [sp + po.getD (getSw sws i).nextIndex 0],
        peers := (getSw sws i).peers ++
          [⟨sp + po.getD (getSw sws i).nextIndex 0, (getSw sws j).dpid,
            sp + po.getD (getSw sws j).nextIndex 0⟩],
        nextIndex := (getSw sws i).nextIndex + 1 } := by
  simp only [addLinkIter]
  rw [getSw_modify_ne hij, getSw_modify_self (by simpa using hi),
    getSw_modify_ne hij, getSw_modify_self (by simpa using hi),
    getSw_modify_ne hij, getSw_modify_self hi]

theorem addLinkIter_getSw_right (sp : Nat) (po : List Nat) {i j : Nat}
    (sws : List Sw) (hij : i ≠ j) (hj : j < sws.length) :
    getSw (addLinkIter sp po i j sws) j =
      { dpid := (getSw sws j).dpid,
        ports := (getSw sws j).ports ++ [sp + po.getD (getSw sws j).nextIndex 0],
        peers := (getSw sws j).peers ++
          [⟨sp + po.getD (getSw sws j).nextIndex 0, (getSw sws i).dpid,
            sp + po.getD (getSw sws i).nextIndex 0⟩],
        nextIndex := (getSw sws j).nextIndex + 1 } := by
  simp only [addLinkIter]
  rw [getSw_modify_self (by simpa using hj),
    getSw_modify_ne (Ne.symm hij), getSw_modify_self (by simpa using hj),
    getSw_modify_ne (Ne.symm hij), getSw_modify_self (by simpa using hj),
    getSw_modify_ne (Ne.symm hij)]

theorem addLinkIter_getSw_diag (sp : Nat) (po : List Nat) {i : Nat}
    (sws : List Sw) (hi : i < sws.length) :
    getSw (addLinkIter sp po i i sws) i =
      { dpid := (getSw sws i).dpid,
        ports := (getSw sws i).ports ++
          [sp + po.getD (getSw sws i).nextIndex 0,
           sp + po.getD (getSw sws i).nextIndex 0],
        peers := (getSw sws i).peers ++
          [⟨sp + po.getD (getSw sws i).nextIndex 0, (getSw sws i).dpid,
            sp + po.getD (getSw sws i).nextIndex 0⟩,
           ⟨sp + po.getD (getSw sws i).nextIndex 0, (getSw sws i).dpid,
            sp + po.getD (getSw sws i).nextIndex 0⟩],
        nextIndex := (getSw sws i).nextIndex + 2 } := by
  simp only [addLinkIter]
  rw [getSw_modify_self (by simpa using hi), getSw_modify_self (by simpa using hi),
    getSw_modify_self (by simpa using hi), getSw_modify_self (by simpa using hi),
    getSw_modify_self (by simpa using hi), getSw_modify_self hi]
  simp

theorem addLinkIter_dpid (sp : Nat) (po : List Nat) {i j : Nat} (sws : List Sw)
    (hi : i < sws.length) (hj : j < sws.length) (m : Nat) :
    (getSw (addLinkIter sp po i j sws) m).dpid = (getSw sws m).dpid := by
  by_cases hmi : m = i
  · subst hmi
    by_cases hmj : m = j
    · subst hmj
      rw [addLinkIter_getSw_diag sp po sws hi]
    · rw [addLinkIter_getSw_left sp po sws hmj hi]
  · by_cases hmj : m = j
    · subst hmj
      rw [addLinkIter_getSw_right sp po sws (fun h => hmi h.symm) hj]
    · rw [addLinkIter_getSw_other sp po sws hmi hmj]

theorem addLinkIter_ports_len (sp : Nat) (po : List Nat) {i j : Nat} (sws : List Sw)
    (hij : i ≠ j) (hi : i < sws.length) (hj : j < sws.length) (m : Nat) :
    (getSw (addLinkIter sp po i j sws) m).ports.length =
      (getSw sws m).ports.length +
        (if m = i then 1 else 0) + (if m = j then 1 else 0) := by
  by_cases hmi : m = i
  · subst hmi
    rw [addLinkIter_getSw_left sp po sws hij hi]
    simp [hij]
  · by_cases hmj : m = j
    · subst hmj
      rw [addLinkIter_getSw_right sp po sws hij hj]
      simp [hmi]
    · rw [addLinkIter_getSw_other sp po sws hmi hmj]
      simp [hmi, hmj]

theorem addLinkIter_peers_len (sp : Nat) (po : List Nat) {i j : Nat} (sws : List Sw)
    (hij : i ≠ j) (hi : i < sws.length) (hj : j < sws.length) (m : Nat) :
    (getSw (addLinkIter sp po i j sws) m).peers.length =
      (getSw sws m).peers.length +
        (if m = i then 1 else 0) + (if m = j then 1 else 0) := by
  by_cases hmi : m = i
  · subst hmi
    rw [addLinkIter_getSw_left sp po sws hij hi]
    simp [hij]
  · by_cases hmj : m = j
    · subst hmj
      rw [addLinkIter_getSw_right sp po sws hij hj]
      simp [hmi]
    · rw [addLinkIter_getSw_other sp po sws hmi hmj]
      simp [hmi, hmj]

theorem addLinkIter_peers_mono (sp : Nat) (po : List Nat) {i j : Nat}
    (sws : List Sw) (hi : i < sws.length) (hj : j < sws.length) (m : Nat) :
    (getSw sws m).peers ⊆ (getSw (addLinkIter sp po i j sws) m).peers := by
  by_cases hmi : m = i
  · subst hmi
    by_cases hmj : m = j
    · subst hmj
      rw [addLinkIter_getSw_diag sp po sws hi]
      exact List.subset_append_left _ _
    · rw [addLinkIter_getSw_left sp po sws hmj hi]
      exact List.subset_append_left _ _
  · by_cases hmj : m = j
    · subst hmj
      rw [addLinkIter_getSw_right sp po sws (fun h => hmi h.symm) hj]
      exact List.subset_append_left _ _
    · rw [addLinkIter_getSw_other sp po sws hmi hmj]
      exact fun x hx => hx

theorem addLinksK_length (sp : Nat) (po : List Nat) (i j : Nat) :
    ∀ (K : Nat) (sws : List Sw), (addLinksK sp po i j K sws).length = sws.length := by
  intro K
  induction K with
  | zero => intro sws; rfl
  | succ k ih => intro sws; rw [addLinksK, ih, addLinkIter_length]

theorem addLinksK_dpid (sp : Nat) (po : List Nat) {i j : Nat} :
    ∀ (K : Nat) (sws : List Sw), i < sws.length → j < sws.length → ∀ m,
      (getSw (addLinksK sp po i j K sws) m).dpid = (getSw sws m).dpid := by
  intro K
  induction K with
  | zero => intro sws _ _ m; rfl
  | succ k ih =>
    intro sws hi hj m
    rw [addLinksK,
      ih _ (by simpa using hi) (by simpa using hj) m,
      addLinkIter_dpid sp po sws hi hj m]

theorem addLinksK_ports_len (sp : Nat) (po : List Nat) {i j : Nat} (hij : i ≠ j) :
    ∀ (K : Nat) (sws : List Sw), i < sws.length → j < sws.length → ∀ m,
      (getSw (addLinksK sp po i j K sws) m).ports.length =
        (getSw sws m).ports.length +
          (if m = i then K else 0) + (if m = j then K else 0) := by
  intro K
  induction K with
  | zero => intro sws _ _ m; simp [addLinksK]
  | succ k ih =>
    intro sws hi hj m
    rw [addLinksK, ih _ (by simpa using hi) (by simpa using hj) m,
      addLinkIter_ports_len sp po sws hij hi hj m]
    split_ifs <;> omega

theorem addLinksK_peers_len (sp : Nat) (po : List Nat) {i j : Nat} (hij : i ≠ j) :
    ∀ (K : Nat) (sws : List Sw), i < sws.length → j < sws.length → ∀ m,
      (getSw (addLinksK sp po i j K sws) m).peers.length =
        (getSw sws m).peers.length +
          (if m = i then K else 0) + (if m = j then K else 0) := by
  intro K
  induction K with
  | zero => intro sws _ _ m; simp [addLinksK]
  | succ k ih =>
    intro sws hi hj m
    rw [addLinksK, ih _ (by simpa using hi) (by simpa using hj) m,
      addLinkIter_peers_len sp po sws hij hi hj m]
    split_ifs <;> omega

theorem addLinksK_peers_mono (sp : Nat) (po : List Nat) {i j : Nat} :
    ∀ (K : Nat) (sws : List Sw), i < sws.length → j < sws.length → ∀ m,
      (getSw sws m).peers ⊆ (getSw (addLinksK sp po i j K sws) m).peers := by
  intro K
  induction K with
  | zero => intro sws _ _ m; exact fun x hx => hx
  | succ k ih =>
    intro sws hi hj m
    rw [addLinksK]
    exact fun x hx =>
      ih _ (by simpa using hi) (by simpa using hj) m
        (addLinkIter_peers_mono sp po sws hi hj m hx)

theorem addLinksK_new_link (sp : Nat) (po : List Nat) {i j : Nat}
    (sws : List Sw) (hij : i ≠ j) (hi : i < sws.length) (hj : j < sws.length)
    {K : Nat} (hK : 1 ≤ K) :
    ∃ pl ∈ (getSw (addLinksK sp po i j K sws) i).peers,
      pl.peer_dpid = (getSw sws j).dpid := by
  obtain ⟨k, rfl⟩ : ∃ k, K = k + 1 := ⟨K - 1, by omega⟩
  have hmem : (⟨sp + po.getD (getSw sws i).nextIndex 0, (getSw sws j).dpid,
      sp + po.getD (getSw sws j).nextIndex 0⟩ : PeerLink) ∈
      (getSw (addLinkIter sp po i j sws) i).peers := by
    rw [addLinkIter_getSw_left sp po sws hij hi]
    simp
  refine ⟨⟨sp + po.getD (getSw sws i).nextIndex 0, (getSw sws j).dpid,
    sp + po.getD (getSw sws j).nextIndex 0⟩, ?_, rfl⟩
  rw [addLinksK]
  exact addLinksK_peers_mono sp po k (addLinkIter sp po i j sws)
    (by simpa using hi) (by simpa using hj) i hmem

theorem mirrorInv_nil : MirrorInv [] := by
  intro i hi
  simp at hi

theorem mirrorInv_append {sws : List Sw} (h : MirrorInv sws) (hp : List Nat)
    (d : Nat) : MirrorInv (sws ++ [mkSw hp d]) := by
  intro m hm pl hpl
  rw [List.length_append, List.length_singleton] at hm
  by_cases hme : m = sws.length
  · subst hme
    rw [getSw_append_len] at hpl
    simp [mkSw] at hpl
  · have hmlt : m < sws.length := by omega
    rw [getSw_append_left hmlt] at hpl ⊢
    obtain ⟨j0, hj0, hdp0, hmem0⟩ := h m hmlt pl hpl
    refine ⟨j0, ?_, ?_, ?_⟩
    · rw [List.length_append, List.length_singleton]
      omega
    · rw [getSw_append_left hj0]
      exact hdp0
    · rw [getSw_append_left hj0]
      exact hmem0

theorem mirrorInv_addLinkIter (sp : Nat) (po : List Nat) {i j : Nat}
    (sws : List Sw) (hi : i < sws.length) (hj : j < sws.length)
    (h : MirrorInv sws) : MirrorInv (addLinkIter sp po i j sws) := by
  have hdp : ∀ m, (getSw (addLinkIter sp po i j sws) m).dpid = (getSw sws m).dpid :=
    addLinkIter_dpid sp po sws hi hj
  have hmono : ∀ m, (getSw sws m).peers ⊆ (getSw (addLinkIter sp po i j sws) m).peers :=
    addLinkIter_peers_mono sp po sws hi hj
  intro m hm pl hpl
  rw [addLinkIter_length] at hm
  have lift : pl ∈ (getSw sws m).peers →
      ∃ j2, j2 < (addLinkIter sp po i j sws).length ∧
        (getSw (addLinkIter sp po i j sws) j2).dpid = pl.peer_dpid ∧
        (⟨pl.peer_port, (getSw (addLinkIter sp po i j sws) m).dpid, pl.port⟩ :
          PeerLink) ∈ (getSw (addLinkIter sp po i j sws) j2).peers := by
    intro hold
    obtain ⟨j0, hj0, hdp0, hmem0⟩ := h m hm pl hold
    refine ⟨j0, ?_, ?_, ?_⟩
    · rw [addLinkIter_length]
      exact hj0
    · rw [hdp j0]
      exact hdp0
    · rw [hdp m]
      exact hmono j0 hmem0
  by_cases hmi : m = i
  · subst hmi
    by_cases hmj : m = j
    · subst hmj
      rw [addLinkIter_getSw_diag sp po sws hi] at hpl
      rcases List.mem_append.mp hpl with hold | hnew
      · exact lift hold
      · simp only [List.mem_cons, List.not_mem_nil, or_false, or_self] at hnew
        refine ⟨m, ?_, ?_, ?_⟩
        · rw [addLinkIter_length]
          exact hm
        · rw [hdp m, hnew]
        · rw [hdp m, hnew]
          rw [addLinkIter_getSw_diag sp po sws hi]
          simp
    · rw [addLinkIter_getSw_left sp po sws hmj hi] at hpl
      rcases List.mem_append.mp hpl with hold | hnew
      · exact lift hold
      · simp only [List.mem_cons, List.not_mem_nil, or_false] at hnew
        refine ⟨j, ?_, ?_, ?_⟩
        · rw [addLinkIter_length]
          exact hj
        · rw [hdp j, hnew]
        · rw [hdp m, hnew]
          rw [addLinkIter_getSw_right sp po sws hmj hj]
          simp
  · by_cases hmj : m = j
    · subst hmj
      rw [addLinkIter_getSw_right sp po sws (fun hh => hmi hh.symm) hj] at hpl
      rcases List.mem_append.mp hpl with hold | hnew
      · exact lift hold
      · simp only [List.mem_cons, List.not_mem_nil, or_false] at hnew
        refine ⟨i, ?_, ?_, ?_⟩
        · rw [addLinkIter_length]
          exact hi
        · rw [hdp i, hnew]
        · rw [hdp m, hnew]
          rw [addLinkIter_getSw_left sp po sws (fun hh => hmi hh.symm) hi]
          simp
    · rw [addLinkIter_getSw_other sp po sws hmi hmj] at hpl
      exact lift hpl

theorem mirrorInv_addLinksK (sp : Nat) (po : List Nat) {i j : Nat} :
    ∀ (K : Nat) (sws : List Sw), i < sws.length → j < sws.length →
      MirrorInv sws → MirrorInv (addLinksK sp po i j K sws) := by
  intro K
  induction K with
  | zero => intro sws _ _ h; exact h
  | succ k ih =>
    intro sws hi hj h
    rw [addLinksK]
    exact ih _ (by simpa using hi) (by simpa using hj)
      (mirrorInv_addLinkIter sp po sws hi hj h)

theorem mirrorInv_chainStep (sp : Nat) (po : List Nat) (K : Nat) (hp : List Nat)
    {sws : List Sw} (h : MirrorInv sws) (d : Nat) :
    MirrorInv (chainStep sp po K hp sws d) := by
  simp only [chainStep]
  split
  · exact mirrorInv_append h hp d
  · rename_i hemp
    have hlen : 0 < sws.length := by
      rcases sws with _ | _
      · simp at hemp
      · simp
    exact mirrorInv_addLinksK sp po K _
      (by simp; omega) (by simp) (mirrorInv_append h hp d)

theorem mirrorInv_chainBuild (sp : Nat) (po : List Nat) (K : Nat) (hp : List Nat) :
    ∀ (dpids : List Nat) (sws : List Sw), MirrorInv sws →
      MirrorInv (List.foldl (chainStep sp po K hp) sws dpids) := by
  intro dpids
  induction dpids with
  | nil => intro sws h; exact h
  | cons d ds ih =>
    intro sws h
    rw [List.foldl_cons]
    exact ih _ (mirrorInv_chainStep sp po K hp h d)

theorem endCount_step (K n m : Nat) (hn : 1 ≤ n) (hm : m < n + 1) :
    (if m = n then 0 else endCount n m * K) + (if m = n - 1 then K else 0) +
      (if m = n then K else 0) = endCount (n + 1) m * K := by
  unfold endCount
  split_ifs <;> omega

theorem chainBuild_spec (sp : Nat) (po : List Nat) (K : Nat) (hp : List Nat)
    (dpids : List Nat) :
    (chainBuild sp po K hp dpids).length = dpids.length ∧
    ∀ m, m < dpids.length →
      (getSw (chainBuild sp po K hp dpids) m).dpid = dpids.getD m 0 ∧
      (getSw (chainBuild sp po K hp dpids) m).ports.length =
        hp.length + endCount dpids.length m * K ∧
      (getSw (chainBuild sp po K hp dpids) m).peers.length =
        endCount dpids.length m * K := by
  induction dpids using List.reverseRecOn with
  | nil =>
    refine ⟨rfl, ?_⟩
    intro m hm
    simp at hm
  | append_singleton l d ih =>
    obtain ⟨ihlen, ihm⟩ := ih
    have hstep : chainBuild sp po K hp (l ++ [d]) =
        chainStep sp po K hp (chainBuild sp po K hp l) d := by
      simp [chainBuild]
    rw [hstep]
    by_cases hnil : l = []
    · subst hnil
      constructor
      · simp [chainStep, chainBuild]
      · intro m hm
        simp at hm
        subst hm
        refine ⟨?_, ?_, ?_⟩ <;> simp [chainStep, chainBuild, getSw, mkSw, endCount]
    · have hlpos : 0 < l.length := List.length_pos.mpr hnil
      have hCnil : chainBuild sp po K hp l ≠ [] := by
        intro hq
        rw [hq] at ihlen
        simp at ihlen
        omega
      simp only [chainStep]
      rw [if_neg (by simpa using hCnil)]
      have hne : (chainBuild sp po K hp l).length - 1 ≠
          (chainBuild sp po K hp l).length := by
        rw [ihlen]; omega
      have hi : (chainBuild sp po K hp l).length - 1 <
          (chainBuild sp po K hp l ++ [mkSw hp d]).length := by
        simp
        omega
      have hj : (chainBuild sp po K hp l).length <
          (chainBuild sp po K hp l ++ [mkSw hp d]).length := by
        simp
      constructor
      · rw [addLinksK_length]
        simp [ihlen]
      · intro m hm
        have hm' : m < l.length + 1 := by simpa using hm
        have hbase_dpid : (getSw (chainBuild sp po K hp l ++ [mkSw hp d]) m).dpid =
            (l ++ [d]).getD m 0 := by
          by_cases hme : m = l.length
          · have hm_eq : m = (chainBuild sp po K hp l).length := by omega
            have h1 : getSw (chainBuild sp po K hp l ++ [mkSw hp d]) m = mkSw hp d := by
              rw [hm_eq]
              exact getSw_append_len
            have h2 : (l ++ [d]).getD m 0 = d := by
              rw [hme]
              simp [List.getD_eq_getElem?_getD, List.getElem?_concat_length]
            rw [h1, h2]
            rfl
          · have hmlt : m < l.length := by omega
            have h1 : getSw (chainBuild sp po K hp l ++ [mkSw hp d]) m =
                getSw (chainBuild sp po K hp l) m :=
              getSw_append_left (by omega)
            have h2 : (l ++ [d]).getD m 0 = l.getD m 0 := by
              simp [List.getD_eq_getElem?_getD, List.getElem?_append_left hmlt]
            rw [h1, h2]
            exact (ihm m hmlt).1
        have hbase_ports : (getSw (chainBuild sp po K hp l ++ [mkSw hp d]) m).ports.length =
            hp.length + (if m = l.length then 0 else endCount l.length m * K) := by
          by_cases hme : m = l.length
          · have hm_eq : m = (chainBuild sp po K hp l).length := by omega
            rw [hm_eq, getSw_append_len, if_pos ihlen]
            simp [mkSw]
          · have hmlt : m < l.length := by omega
            rw [getSw_append_left (by omega : m < (chainBuild sp po K hp l).length),
              if_neg hme]
            exact (ihm m hmlt).2.1
        have hbase_peers : (getSw (chainBuild sp po K hp l ++ [mkSw hp d]) m).peers.length =
            (if m = l.length then 0 else endCount l.length m * K) := by
          by_cases hme : m = l.length
          · have hm_eq : m = (chainBuild sp po K hp l).length := by omega
            rw [hm_eq, getSw_append_len, if_pos ihlen]
            simp [mkSw]
          · have hmlt : m < l.length := by omega
            rw [getSw_append_left (by omega : m < (chainBuild sp po K hp l).length),
              if_neg hme]
            exact (ihm m hmlt).2.2
        have e1 : (if m = (chainBuild sp po K hp l).length - 1 then K else 0) =
            (if m = l.length - 1 then K else 0) := by
          rw [ihlen]
        have e2 : (if m = (chainBuild sp po K hp l).length then K else 0) =
            (if m = l.length then K else 0) := by
          rw [ihlen]
        have hlen2 : (l ++ [d]).length = l.length + 1 := by simp
        have hstep2 := endCount_step K l.length m hlpos hm'
        refine ⟨?_, ?_, ?_⟩
        · rw [addLinksK_dpid sp po K _ hi hj m, hbase_dpid]
        · rw [addLinksK_ports_len sp po hne K _ hi hj m, hbase_ports, e1, e2, hlen2]
          generalize hE1 : endCount l.length m * K = E1 at hstep2 ⊢
          generalize hE2 : endCount (l.length + 1) m * K = E2 at hstep2 ⊢
          omega
        · rw [addLinksK_peers_len sp po hne K _ hi hj m, hbase_peers, e1, e2, hlen2]
          generalize hE1 : endCount l.length m * K = E1 at hstep2 ⊢
          generalize hE2 : endCount (l.length + 1) m * K = E2 at hstep2 ⊢
          omega

/-- C5: after any successful chain/ring build (any switch count, host
counts, links per host, switch-to-switch link count and ring flag), the
peer-link tables satisfy the mirror invariant: every stored
`PeerLink{port, pd, pp}` of a switch with dpid `d` has the mirror record
`PeerLink{pp, d, port}` stored under a switch carrying dpid `pd`. -/
theorem peer_links_mirrored (dpids : List Nat)
    (n_tagged n_untagged links_per_host K : Nat) (stack_ring : Bool)
    (sp : Nat) (po : Option (List Nat)) (sws : List Sw)
    (hb : buildStringOfDP dpids n_tagged n_untagged links_per_host K stack_ring
      sp po = some sws) : MirrorInv sws := by
  simp only [buildStringOfDP] at hb
  cases stack_ring with
  | false =>
    rw [if_neg (by simp)] at hb
    have hs := Option.some.inj hb
    subst hs
    exact mirrorInv_chainBuild sp _ K _ dpids [] mirrorInv_nil
  | true =>
    rw [if_pos rfl] at hb
    split at hb
    · exact absurd hb (by simp)
    · rename_i hemp
      have hs := Option.some.inj hb
      subst hs
      have hnil : chainBuild sp
          (extend_port_order po ((n_tagged + n_untagged) * links_per_host + 2 * K)) K
          (hostPortList sp
            (extend_port_order po ((n_tagged + n_untagged) * links_per_host + 2 * K))
            ((n_tagged + n_untagged) * links_per_host)) dpids ≠ [] := by
        simpa using hemp
      have hpos := List.length_pos.mpr hnil
      exact mirrorInv_addLinksK sp _ K _ hpos (by omega)
        (mirrorInv_chainBuild sp _ K _ dpids [] mirrorInv_nil)

theorem peer_links_mirrored_witness :
    MirrorInv ((buildStringOfDP [1, 2] 0 1 1 1 false 5 none).getD []) :=
  peer_links_mirrored [1, 2] 0 1 1 1 false 5 none
    ((buildStringOfDP [1, 2] 0 1 1 1 false 5 none).getD []) (by decide)

/-- C6: a chain build (no ring) of `N ≥ 2` switches with `U` untagged
hosts per switch, `L` links per host, no tagged hosts and `K`
switch-to-switch links records exactly `U*L + K` ports on the first and
the last switch and exactly `U*L + 2*K` ports on every interior
switch. -/
theorem chain_ports_count (dpids : List Nat) (U L K sp : Nat)
    (po : Option (List Nat)) (sws : List Sw) (h2 : 2 ≤ dpids.length)
    (hb : buildStringOfDP dpids 0 U L K false sp po = some sws) :
    (getSw sws 0).ports.length = U * L + K ∧
    (getSw sws (dpids.length - 1)).ports.length = U * L + K ∧
    ∀ m, 0 < m → m < dpids.length - 1 →
      (getSw sws m).ports.length = U * L + 2 * K := by
  simp only [buildStringOfDP] at hb
  rw [if_neg (by simp)] at hb
  have hs := Option.some.inj hb
  subst hs
  obtain ⟨hlen, hm⟩ := chainBuild_spec sp
    (extend_port_order po ((0 + U) * L + 2 * K)) K
    (hostPortList sp (extend_port_order po ((0 + U) * L + 2 * K)) ((0 + U) * L))
    dpids
  have hhp : (hostPortList sp (extend_port_order po ((0 + U) * L + 2 * K))
      ((0 + U) * L)).length = (0 + U) * L := by
    simp [hostPortList]
  refine ⟨?_, ?_, ?_⟩
  · have h := (hm 0 (by omega)).2.1
    rw [h, hhp]
    have hE : endCount dpids.length 0 = 1 := by
      unfold endCount
      rw [if_neg (by omega), if_pos (Or.inl rfl)]
    rw [hE]
    simp
  · have h := (hm (dpids.length - 1) (by omega)).2.1
    rw [h, hhp]
    have hE : endCount dpids.length (dpids.length - 1) = 1 := by
      unfold endCount
      rw [if_neg (by omega), if_pos (Or.inr rfl)]
    rw [hE]
    simp
  · intro m h0 hm1
    have h := (hm m (by omega)).2.1
    rw [h, hhp]
    have hE : endCount dpids.length m = 2 := by
      unfold endCount
      rw [if_neg (by omega), if_neg (by rintro (hq | hq) <;> omega)]
    rw [hE]
    simp

theorem chain_ports_count_witness :
    (getSw ((buildStringOfDP [1, 2, 3] 0 2 1 1 false 5 none).getD []) 0).ports.length =
      2 * 1 + 1 ∧
    (getSw ((buildStringOfDP [1, 2, 3] 0 2 1 1 false 5 none).getD [])
      (([1, 2, 3] : List Nat).length - 1)).ports.length = 2 * 1 + 1 ∧
    ∀ m, 0 < m → m < ([1, 2, 3] : List Nat).length - 1 →
      (getSw ((buildStringOfDP [1, 2, 3] 0 2 1 1 false 5 none).getD []) m).ports.length =
        2 * 1 + 2 * 1 :=
  chain_ports_count [1, 2, 3] 2 1 1 5 none
    ((buildStringOfDP [1, 2, 3] 0 2 1 1 false 5 none).getD []) (by decide) (by decide)

/-- C7: the concrete 3-switch chain with 2 untagged hosts per switch,
1 link per host, 1 switch-to-switch link, no ring, start port 5 and the
default port order records port lists [5,6,7], [5,6,7,8], [5,6,7]. -/
theorem three_switch_chain_ports :
    (buildStringOfDP [1, 2, 3] 0 2 1 1 false 5 none).map (List.map Sw.ports) =
      some [[5, 6, 7], [5, 6, 7, 8], [5, 6, 7]] := by decide

theorem hw_remap_peer_link_id (c : HwCtx) (hc : c.hw_dpid = none) (d : Nat)
    (pl : PeerLink) : hw_remap_peer_link c d pl = .ok pl := by
  simp [hw_remap_peer_link, hw_remap_port, hc]
  rfl

theorem mapExcept_ok {α : Type} (f : α → Except PyErr α) :
    ∀ (l : List α), (∀ x ∈ l, f x = .ok x) → mapExcept f l = .ok l := by
  intro l
  induction l with
  | nil => intro h; rfl
  | cons a as ih =>
    intro h
    have h1 : f a = .ok a := h a (by simp)
    have h2 : mapExcept f as = .ok as := ih (fun x hx => h x (by simp [hx]))
    simp only [mapExcept]
    rw [h1, h2]
    rfl

theorem list_eq_single_of_nodup {l : List Nat} (hnd : l.Nodup) (k : Nat)
    (hmem : k ∈ l) (hall : ∀ x ∈ l, x = k) : l = [k] := by
  cases l with
  | nil => simp at hmem
  | cons x xs =>
    have hx : x = k := hall x (by simp)
    subst hx
    cases xs with
    | nil => rfl
    | cons y ys =>
      have hy : y = x := hall y (by simp)
      subst hy
      simp at hnd

theorem filter_range_single (p : Nat → Bool) (n k : Nat) (hk : k < n)
    (hp : ∀ m, m < n → (p m = true ↔ m = k)) :
    (List.range n).filter p = [k] := by
  apply list_eq_single_of_nodup (List.Nodup.filter p (List.nodup_range n))
  · rw [List.mem_filter]
    exact ⟨List.mem_range.mpr hk, (hp k hk).mpr rfl⟩
  · intro x hx
    rw [List.mem_filter] at hx
    exact (hp x (List.mem_range.mp hx.1)).mp hx.2

theorem dpid_names_lookup_of_unique (sws : List Sw) (k : Nat) (hk : k < sws.length)
    (huniq : ∀ m, m < sws.length → ((getSw sws m).dpid = (getSw sws k).dpid ↔ m = k)) :
    dpid_names_lookup sws ((getSw sws k).dpid) = some k := by
  unfold dpid_names_lookup
  rw [filter_range_single _ sws.length k hk ?_]
  · rfl
  · intro m hm
    rw [beq_iff_eq]
    exact huniq m hm

/-- C8 (amended): for every ring build (`stack_ring = true`) of `N ≥ 3`
switches with pairwise distinct dpids, at least one switch-to-switch
link, and no configured hardware remap dpid, switch 0 and switch `N-1`
each record `K` more peer-link records than in the identical build
without the ring, and `dpid_peer_links` on the first switch's dpid
succeeds and contains an entry whose peer dpid equals the last switch's
dpid. -/
theorem ring_extra_links (dpids : List Nat) (T U L K sp : Nat)
    (po : Option (List Nat)) (swsR swsC : List Sw) (hN : 3 ≤ dpids.length)
    (hnd : dpids.Nodup) (hK : 1 ≤ K)
    (hbR : buildStringOfDP dpids T U L K true sp po = some swsR)
    (hbC : buildStringOfDP dpids T U L K false sp po = some swsC)
    (c : HwCtx) (hc : c.hw_dpid = none) :
    (getSw swsR 0).peers.length = (getSw swsC 0).peers.length + K ∧
    (getSw swsR (dpids.length - 1)).peers.length =
      (getSw swsC (dpids.length - 1)).peers.length + K ∧
    ∃ pls, dpid_peer_links c swsR (dpids.getD 0 0) = .ok pls ∧
      ∃ e ∈ pls, e.peer_dpid = dpids.getD (dpids.length - 1) 0 := by
  simp only [buildStringOfDP] at hbR hbC
  rw [if_neg (by simp)] at hbC
  rw [if_pos trivial] at hbR
  set po2 := extend_port_order po ((T + U) * L + 2 * K) with hpo2
  set hp2 := hostPortList sp po2 ((T + U) * L) with hhp2
  set C := chainBuild sp po2 K hp2 dpids with hCdef
  have hsC := Option.some.inj hbC
  subst hsC
  have hclen : C.length = dpids.length := by
    rw [hCdef]
    exact (chainBuild_spec sp po2 K hp2 dpids).1
  have hcm := (chainBuild_spec sp po2 K hp2 dpids).2
  rw [← hCdef] at hcm
  split at hbR
  · exact absurd hbR (by simp)
  · have hsR := Option.some.inj hbR
    subst hsR
    have hpos : 0 < C.length := by omega
    have hij : (0 : Nat) ≠ C.length - 1 := by omega
    have hj : C.length - 1 < C.length := by omega
    refine ⟨?_, ?_, ?_⟩
    · rw [addLinksK_peers_len sp po2 hij K C hpos hj 0, if_pos rfl, if_neg hij]
      omega
    · rw [addLinksK_peers_len sp po2 hij K C hpos hj (dpids.length - 1),
        if_neg (by omega), if_pos (by omega)]
      omega
    · have hRlen : (addLinksK sp po2 0 (C.length - 1) K C).length = C.length :=
        addLinksK_length sp po2 0 (C.length - 1) K C
      have hdpR : ∀ m, (getSw (addLinksK sp po2 0 (C.length - 1) K C) m).dpid =
          (getSw C m).dpid := addLinksK_dpid sp po2 K C hpos hj
      have h0 : (getSw (addLinksK sp po2 0 (C.length - 1) K C) 0).dpid =
          dpids.getD 0 0 := by
        rw [hdpR 0]
        exact (hcm 0 (by omega)).1
      have hlookup : dpid_names_lookup (addLinksK sp po2 0 (C.length - 1) K C)
          (dpids.getD 0 0) = some 0 := by
        rw [← h0]
        apply dpid_names_lookup_of_unique _ 0 (by rw [hRlen]; omega)
        intro m hm
        rw [hRlen] at hm
        have hmN : m < dpids.length := by omega
        rw [hdpR m, hdpR 0, (hcm m hmN).1, (hcm 0 (by omega)).1]
        constructor
        · intro he
          have e1 : dpids.getD m 0 = dpids.get ⟨m, hmN⟩ := by
            simp [List.getD_eq_getElem?_getD, List.getElem?_eq_getElem hmN]
          have e0 : dpids.getD 0 0 = dpids.get ⟨0, by omega⟩ := by
            simp [List.getD_eq_getElem?_getD,
              List.getElem?_eq_getElem (show 0 < dpids.length by omega)]
          rw [e1, e0] at he
          exact congrArg Fin.val (hnd.get_inj_iff.mp he)
        · intro he
          rw [he]
      have hpls : dpid_peer_links c (addLinksK sp po2 0 (C.length - 1) K C)
          (dpids.getD 0 0) =
          .ok (getSw (addLinksK sp po2 0 (C.length - 1) K C) 0).peers := by
        simp only [dpid_peer_links, hlookup]
        exact mapExcept_ok _ _ (fun x _ => hw_remap_peer_link_id c hc _ x)
      refine ⟨_, hpls, ?_⟩
      obtain ⟨pl, hmem, hpd⟩ := addLinksK_new_link sp po2 C hij hpos hj hK
      refine ⟨pl, hmem, ?_⟩
      rw [hpd]
      have hlast : C.length - 1 = dpids.length - 1 := by omega
      rw [hlast]
      exact (hcm (dpids.length - 1) (by omega)).1

/-- C8 counterexample: in the ring build over the duplicate dpid list
[1, 2, 1, 3, 4] (no hosts, one switch-to-switch link), the dict
`dpid_names` maps dpid 1 to the *last* switch built with it — the
interior switch at position 2 — so `dpid_peer_links` on the first
switch's dpid returns that interior switch's records, whose peer dpids
are 2 and 3: no entry carries the last switch's dpid 4, refuting the
claim for this build. -/
theorem ring_extra_links_counterexample :
    (buildStringOfDP [1, 2, 1, 3, 4] 0 0 0 1 true 5 none).isSome = true ∧
    dpid_peer_links ⟨none, [], 5⟩
        ((buildStringOfDP [1, 2, 1, 3, 4] 0 0 0 1 true 5 none).getD []) 1 =
      .ok [⟨5, 2, 6⟩, ⟨6, 3, 5⟩] ∧
    ∀ e ∈ ([⟨5, 2, 6⟩, ⟨6, 3, 5⟩] : List PeerLink), e.peer_dpid ≠ 4 := by
  decide

theorem ring_extra_links_witness :
    (getSw ((buildStringOfDP [1, 2, 3] 0 0 0 1 true 5 none).getD []) 0).peers.length =
      (getSw ((buildStringOfDP [1, 2, 3] 0 0 0 1 false 5 none).getD []) 0).peers.length
        + 1 ∧
    (getSw ((buildStringOfDP [1, 2, 3] 0 0 0 1 true 5 none).getD [])
        (([1, 2, 3] : List Nat).length - 1)).peers.length =
      (getSw ((buildStringOfDP [1, 2, 3] 0 0 0 1 false 5 none).getD [])
        (([1, 2, 3] : List Nat).length - 1)).peers.length + 1 ∧
    ∃ pls, dpid_peer_links ⟨none, [], 5⟩
        ((buildStringOfDP [1, 2, 3] 0 0 0 1 true 5 none).getD [])
        (([1, 2, 3] : List Nat).getD 0 0) = .ok pls ∧
      ∃ e ∈ pls,
        e.peer_dpid = ([1, 2, 3] : List Nat).getD (([1, 2, 3] : List Nat).length - 1) 0 :=
  ring_extra_links [1, 2, 3] 0 0 0 1 5 none _ _ (by decide) (by decide) (by decide)
    (by decide) (by decide) ⟨none, [], 5⟩ rfl
